import Mathlib

/-!
Verification of the chaincode event stream adapter
(src/node/src/chaincodeevent.ts, function newChaincodeEvents).

The adapter consumes a closable asynchronous stream of
ChaincodeEventsResponse batches and re-emits a flat, ordered, cancellable
stream of ChaincodeEvent values.  We embed it as an explicit state
machine: the async generator becomes a `next` step function on an
`AdapterState`, the captured `closed` flag becomes a state field, and the
upstream `CloseableAsyncIterable` becomes a fixed trace, namely a list of
batches followed by an ending marker (natural end of stream, or a
transport error raised by the pull that would have produced the next
batch).  Calls to `responses.close()` are counted in the state.
-/

set_option autoImplicit false

namespace FabricGateway

/-- Wire-format chaincode event record as seen through the generated
protobuf accessors (`getChaincodeId`, `getEventName`, `getTxId`,
`getPayload_asU8`): every field may be absent, payload bytes are modelled
as a list of naturals. -/
structure ChaincodeEventProto where
  chaincodeId : Option String
  eventName : Option String
  txId : Option String
  payload : Option (List Nat)
  deriving Repr, DecidableEq

/-- Wire-format block batch as seen through the generated protobuf
accessors (`getBlockNumber`, `getEventsList`): one optional block number
plus an optional ordered list of raw event records. -/
structure ChaincodeEventsResponse where
  blockNumber : Option Nat
  eventsList : Option (List ChaincodeEventProto)
  deriving Repr, DecidableEq

/-- Public result entity of chaincodeevent.ts: one decoded event, tagged
with the block number of its containing batch. -/
structure ChaincodeEvent where
  blockNumber : Nat
  transactionId : String
  chaincodeId : String
  eventName : String
  payload : List Nat
  deriving Repr, DecidableEq

/-- Embedding of `newChaincodeEvent` (chaincodeevent.ts lines 64-72):
decode one raw record, defaulting each absent field. -/
def newChaincodeEvent (blockNumber : Nat) (event : ChaincodeEventProto) : ChaincodeEvent :=
  { blockNumber := blockNumber
    chaincodeId := event.chaincodeId.getD ""
    eventName := event.eventName.getD ""
    transactionId := event.txId.getD ""
    payload := event.payload.getD [] }

/-- Embedding of `BigInt(response.getBlockNumber() ?? 0)` (line 50). -/
def decodedBlockNumber (response : ChaincodeEventsResponse) : Nat :=
  response.blockNumber.getD 0

/-- Embedding of `response.getEventsList() || []` (line 51). -/
def decodedEvents (response : ChaincodeEventsResponse) : List ChaincodeEventProto :=
  response.eventsList.getD []

/-- All events decoded from one batch, in the batch's record order, each
tagged with the batch's decoded block number (lines 52-54). -/
def decodeBatch (response : ChaincodeEventsResponse) : List ChaincodeEvent :=
  (decodedEvents response).map (newChaincodeEvent (decodedBlockNumber response))

/-- How the upstream trace ends once its batches are exhausted: a natural
end of stream, or a transport error raised while awaiting the next batch. -/
inductive UpstreamEnd (ε : Type) where
  | natural : UpstreamEnd ε
  | error (e : ε) : UpstreamEnd ε
  deriving Repr, DecidableEq

/-- Result of one consumer request for the next element of the adapter's
output stream. -/
inductive Output (ε : Type) where
  | event (e : ChaincodeEvent) : Output ε
  | ended : Output ε
  | error (e : ε) : Output ε
  deriving Repr, DecidableEq

/-- Control position of the suspended async generator: at the top of the
outer `for await` loop (about to pull a batch), inside the inner `for`
loop with the current batch's decoded block number and the records not
yet yielded, or finished. -/
inductive GenPos where
  | outer : GenPos
  | inner (blockNumber : Nat) (rest : List ChaincodeEventProto) : GenPos
  | done : GenPos
  deriving Repr, DecidableEq

/-- State of one adapter instance: the captured `closed` flag, the
generator position, the remaining upstream trace, and a count of the
`responses.close()` invocations performed so far. -/
structure AdapterState (ε : Type) where
  closed : Bool
  pos : GenPos
  upstream : List ChaincodeEventsResponse
  ending : UpstreamEnd ε
  upstreamCloseCount : Nat
  deriving Repr, DecidableEq

/-- One round of the outer `for await (const response of responses)` loop
(lines 45-55): await the next batch (an exhausted trace ends the
generator or rethrows the pending transport error), then check the
`closed` flag and return if set, then decode the batch; an empty record
list falls through to the next pull, a non-empty one yields its first
record and suspends inside the batch. -/
def pullNext {ε : Type} (c : Bool) :
    List ChaincodeEventsResponse → UpstreamEnd ε → Nat → Output ε × AdapterState ε
  | [], UpstreamEnd.natural, cnt => (Output.ended, ⟨c, GenPos.done, [], UpstreamEnd.natural, cnt⟩)
  | [], UpstreamEnd.error e, cnt => (Output.error e, ⟨c, GenPos.done, [], UpstreamEnd.error e, cnt⟩)
  | response :: rest, ending, cnt =>
    if c then
      (Output.ended, ⟨c, GenPos.done, rest, ending, cnt⟩)
    else
      match decodedEvents response with
      | [] => pullNext c rest ending cnt
      | e :: es =>
        (Output.event (newChaincodeEvent (decodedBlockNumber response) e),
         ⟨c, GenPos.inner (decodedBlockNumber response) es, rest, ending, cnt⟩)

/-- One consumer request for the next element: a finished generator
reports end of stream; a generator suspended inside a batch yields the
next record of that batch; otherwise control is back at the outer loop,
which pulls from upstream. -/
def next {ε : Type} (s : AdapterState ε) : Output ε × AdapterState ε :=
  match s.pos with
  | GenPos.done => (Output.ended, s)
  | GenPos.inner bn (e :: rest) =>
    (Output.event (newChaincodeEvent bn e),
     ⟨s.closed, GenPos.inner bn rest, s.upstream, s.ending, s.upstreamCloseCount⟩)
  | GenPos.inner _ [] => pullNext s.closed s.upstream s.ending s.upstreamCloseCount
  | GenPos.outer => pullNext s.closed s.upstream s.ending s.upstreamCloseCount

/-- Embedding of the adapter's `close` method (lines 57-60): set the
`closed` flag and invoke `responses.close()` once. -/
def close {ε : Type} (s : AdapterState ε) : AdapterState ε :=
  ⟨true, s.pos, s.upstream, s.ending, s.upstreamCloseCount + 1⟩

/-- State of a freshly built adapter over the given upstream trace:
`closed` is false, the generator sits at the outer loop, no upstream
close has happened. -/
def initialState {ε : Type} (batches : List ChaincodeEventsResponse) (ending : UpstreamEnd ε) :
    AdapterState ε :=
  ⟨false, GenPos.outer, batches, ending, 0⟩

/-- Run `fuel` consecutive `next` requests, collecting the outputs and
the final state. -/
def runSteps {ε : Type} : Nat → AdapterState ε → List (Output ε) × AdapterState ε
  | 0, s => ([], s)
  | f + 1, s =>
    let r := next s
    let t := runSteps f r.2
    (r.1 :: t.1, t.2)

/-- Events appearing in a list of outputs, in order. -/
def eventsOf {ε : Type} (outs : List (Output ε)) : List ChaincodeEvent :=
  outs.filterMap (fun o =>
    match o with
    | Output.event e => some e
    | _ => none)

/-- Total number of decoded records carried by a list of batches. -/
def totalRecords : List ChaincodeEventsResponse → Nat
  | [] => 0
  | b :: bs => (decodedEvents b).length + totalRecords bs

/-- Concatenation, in batch order, of each batch's decoded events. -/
def flattenBatches : List ChaincodeEventsResponse → List ChaincodeEvent
  | [] => []
  | b :: bs => decodeBatch b ++ flattenBatches bs

/-- Output produced by the first pull after the `closed` flag is set: end
of stream when a batch is available or the trace ended naturally, the
pending transport error otherwise. -/
def closedTerminalOutput {ε : Type} :
    List ChaincodeEventsResponse → UpstreamEnd ε → Output ε
  | _ :: _, _ => Output.ended
  | [], UpstreamEnd.natural => Output.ended
  | [], UpstreamEnd.error e => Output.error e

/-! ### Basic lemmas about the step function -/

theorem runSteps_succ {ε : Type} (f : Nat) (s : AdapterState ε) :
    runSteps (f + 1) s
      = ((next s).1 :: (runSteps f (next s).2).1, (runSteps f (next s).2).2) := rfl

theorem runSteps_done {ε : Type} (k : Nat) (c : Bool) (bs : List ChaincodeEventsResponse)
    (ending : UpstreamEnd ε) (cnt : Nat) :
    runSteps k (⟨c, GenPos.done, bs, ending, cnt⟩ : AdapterState ε)
      = (List.replicate k Output.ended, ⟨c, GenPos.done, bs, ending, cnt⟩) := by
  induction k with
  | zero => rfl
  | succ k ih => simp [runSteps_succ, next, ih, List.replicate]

theorem next_inner_nil {ε : Type} (c : Bool) (bn : Nat) (bs : List ChaincodeEventsResponse)
    (ending : UpstreamEnd ε) (cnt : Nat) :
    next (⟨c, GenPos.inner bn [], bs, ending, cnt⟩ : AdapterState ε)
      = next (⟨c, GenPos.outer, bs, ending, cnt⟩ : AdapterState ε) := rfl

theorem runSteps_inner {ε : Type} (rest : List ChaincodeEventProto) (bn : Nat) (c : Bool)
    (bs : List ChaincodeEventsResponse) (ending : UpstreamEnd ε) (cnt n : Nat) :
    runSteps (rest.length + (n + 1)) (⟨c, GenPos.inner bn rest, bs, ending, cnt⟩ : AdapterState ε)
      = ((rest.map fun e => Output.event (newChaincodeEvent bn e))
          ++ (runSteps (n + 1) (⟨c, GenPos.outer, bs, ending, cnt⟩ : AdapterState ε)).1,
         (runSteps (n + 1) (⟨c, GenPos.outer, bs, ending, cnt⟩ : AdapterState ε)).2) := by
  induction rest with
  | nil =>
    simp only [List.length_nil, Nat.zero_add, List.map_nil, List.nil_append]
    rw [runSteps_succ, runSteps_succ, next_inner_nil]
  | cons e es ih =>
    have hf : (e :: es).length + (n + 1) = (es.length + (n + 1)) + 1 := by
      simp [List.length_cons]; omega
    rw [hf, runSteps_succ]
    simp only [next]
    rw [ih]
    simp

theorem pullNext_fields {ε : Type} :
    ∀ (bs : List ChaincodeEventsResponse) (c : Bool) (ending : UpstreamEnd ε) (cnt : Nat),
      ((pullNext c bs ending cnt).2.closed = c
        ∧ (pullNext c bs ending cnt).2.ending = ending)
        ∧ (pullNext c bs ending cnt).2.upstreamCloseCount = cnt := by
  intro bs
  induction bs with
  | nil => intro c ending cnt; cases ending <;> simp [pullNext]
  | cons b rest ih =>
    intro c ending cnt
    cases c with
    | true => simp [pullNext]
    | false =>
      cases h : decodedEvents b with
      | nil => simp [pullNext, h, ih]
      | cons e es => simp [pullNext, h]

theorem next_fields {ε : Type} (s : AdapterState ε) :
    ((next s).2.closed = s.closed ∧ (next s).2.ending = s.ending)
      ∧ (next s).2.upstreamCloseCount = s.upstreamCloseCount := by
  cases s with
  | mk c p u ending cnt =>
    cases p with
    | outer => exact pullNext_fields u c ending cnt
    | done => simp [next]
    | inner bn rest =>
      cases rest with
      | nil => exact pullNext_fields u c ending cnt
      | cons e es => simp [next]

/-! ### Draining an unclosed adapter over a naturally ending trace -/

theorem runSteps_outer_natural {ε : Type} :
    ∀ (bs : List ChaincodeEventsResponse) (cnt : Nat),
      runSteps (totalRecords bs + 1)
          (⟨false, GenPos.outer, bs, UpstreamEnd.natural, cnt⟩ : AdapterState ε)
        = ((flattenBatches bs).map Output.event ++ [Output.ended],
           ⟨false, GenPos.done, [], UpstreamEnd.natural, cnt⟩) := by
  intro bs
  induction bs with
  | nil =>
    intro cnt
    simp [totalRecords, flattenBatches, runSteps_succ, runSteps, next, pullNext]
  | cons b bs ih =>
    intro cnt
    cases h : decodedEvents b with
    | nil =>
      have hf : totalRecords (b :: bs) = totalRecords bs := by
        simp [totalRecords, h]
      have hflat : flattenBatches (b :: bs) = flattenBatches bs := by
        simp [flattenBatches, decodeBatch, h]
      rw [hf, hflat, runSteps_succ]
      have hnext : next (⟨false, GenPos.outer, b :: bs, UpstreamEnd.natural, cnt⟩ : AdapterState ε)
          = next (⟨false, GenPos.outer, bs, UpstreamEnd.natural, cnt⟩ : AdapterState ε) := by
        simp [next, pullNext, h]
      rw [hnext, ← runSteps_succ, ih]
    | cons e es =>
      have hf : totalRecords (b :: bs) + 1 = (es.length + (totalRecords bs + 1)) + 1 := by
        simp [totalRecords, h]; omega
      rw [hf, runSteps_succ]
      have hnext : next (⟨false, GenPos.outer, b :: bs, UpstreamEnd.natural, cnt⟩ : AdapterState ε)
          = (Output.event (newChaincodeEvent (decodedBlockNumber b) e),
             ⟨false, GenPos.inner (decodedBlockNumber b) es, bs, UpstreamEnd.natural, cnt⟩) := by
        simp [next, pullNext, h]
      rw [hnext]
      simp only [runSteps_inner, ih]
      simp [flattenBatches, decodeBatch, h]

/-! ### Behavior after the closed flag is set -/

theorem next_closed_outer {ε : Type} (bs : List ChaincodeEventsResponse)
    (ending : UpstreamEnd ε) (cnt : Nat) :
    next (⟨true, GenPos.outer, bs, ending, cnt⟩ : AdapterState ε)
      = (closedTerminalOutput bs ending, ⟨true, GenPos.done, bs.tail, ending, cnt⟩) := by
  cases bs with
  | nil => cases ending <;> simp [next, pullNext, closedTerminalOutput]
  | cons b rest => simp [next, pullNext, closedTerminalOutput]

theorem runSteps_closed_outer {ε : Type} (bs : List ChaincodeEventsResponse)
    (ending : UpstreamEnd ε) (cnt k : Nat) :
    runSteps (k + 1) (⟨true, GenPos.outer, bs, ending, cnt⟩ : AdapterState ε)
      = (closedTerminalOutput bs ending :: List.replicate k Output.ended,
         ⟨true, GenPos.done, bs.tail, ending, cnt⟩) := by
  rw [runSteps_succ, next_closed_outer]
  simp [runSteps_done]

theorem runSteps_closed_inner {ε : Type} (rest : List ChaincodeEventProto) (bn : Nat)
    (bs : List ChaincodeEventsResponse) (ending : UpstreamEnd ε) (cnt k : Nat) :
    runSteps (rest.length + (k + 1))
        (⟨true, GenPos.inner bn rest, bs, ending, cnt⟩ : AdapterState ε)
      = ((rest.map fun e => Output.event (newChaincodeEvent bn e))
          ++ closedTerminalOutput bs ending :: List.replicate k Output.ended,
         ⟨true, GenPos.done, bs.tail, ending, cnt⟩) := by
  rw [runSteps_inner, runSteps_closed_outer]

theorem closedTerminalOutput_ne_event {ε : Type} (bs : List ChaincodeEventsResponse)
    (ending : UpstreamEnd ε) (e : ChaincodeEvent) :
    closedTerminalOutput bs ending ≠ Output.event e := by
  cases bs with
  | nil => cases ending <;> simp [closedTerminalOutput]
  | cons b rest => simp [closedTerminalOutput]

/-! ### Events of an output list -/

theorem eventsOf_nil {ε : Type} : eventsOf ([] : List (Output ε)) = [] := rfl

theorem eventsOf_event_cons {ε : Type} (e : ChaincodeEvent) (t : List (Output ε)) :
    eventsOf (Output.event e :: t) = e :: eventsOf t := rfl

theorem eventsOf_ended_cons {ε : Type} (t : List (Output ε)) :
    eventsOf (Output.ended :: t) = eventsOf t := rfl

theorem eventsOf_error_cons {ε : Type} (x : ε) (t : List (Output ε)) :
    eventsOf (Output.error x :: t) = eventsOf t := rfl

theorem eventsOf_map_event_append {ε : Type} (l : List ChaincodeEvent)
    (t : List (Output ε)) :
    eventsOf (l.map Output.event ++ t) = l ++ eventsOf t := by
  induction l with
  | nil => simp
  | cons e es ih => simp [eventsOf_event_cons, ih]

theorem eventsOf_replicate_ended {ε : Type} (k : Nat) :
    eventsOf (List.replicate k (Output.ended : Output ε)) = [] := by
  induction k with
  | zero => rfl
  | succ k ih => simp [List.replicate, eventsOf_ended_cons, ih]

theorem eventsOf_closedTerminal_cons {ε : Type} (bs : List ChaincodeEventsResponse)
    (ending : UpstreamEnd ε) (t : List (Output ε)) :
    eventsOf (closedTerminalOutput bs ending :: t) = eventsOf t := by
  cases bs with
  | nil => cases ending <;> rfl
  | cons b rest => rfl

theorem flattenBatches_length (bs : List ChaincodeEventsResponse) :
    (flattenBatches bs).length = totalRecords bs := by
  induction bs with
  | nil => rfl
  | cons b rest ih => simp [flattenBatches, totalRecords, decodeBatch, ih]

theorem runSteps_add {ε : Type} (m n : Nat) (s : AdapterState ε) :
    runSteps (m + n) s
      = ((runSteps m s).1 ++ (runSteps n (runSteps m s).2).1,
         (runSteps n (runSteps m s).2).2) := by
  induction m generalizing s with
  | zero => simp [runSteps]
  | succ m ih =>
    rw [Nat.succ_add, runSteps_succ, runSteps_succ, ih]
    simp

theorem runSteps_inner_partial {ε : Type} :
    ∀ (rest : List ChaincodeEventProto) (bn : Nat) (c : Bool)
      (bs : List ChaincodeEventsResponse) (ending : UpstreamEnd ε) (cnt : Nat),
      runSteps rest.length (⟨c, GenPos.inner bn rest, bs, ending, cnt⟩ : AdapterState ε)
        = (rest.map fun e => Output.event (newChaincodeEvent bn e),
           ⟨c, GenPos.inner bn [], bs, ending, cnt⟩) := by
  intro rest
  induction rest with
  | nil => intro bn c bs ending cnt; rfl
  | cons e es ih =>
    intro bn c bs ending cnt
    rw [List.length_cons, runSteps_succ]
    simp only [next]
    rw [ih]
    simp

theorem decodeBatch_blockNumbers (b : ChaincodeEventsResponse) :
    (decodeBatch b).map ChaincodeEvent.blockNumber
      = List.replicate (decodedEvents b).length (decodedBlockNumber b) := by
  have : ∀ (es : List ChaincodeEventProto) (bn : Nat),
      (es.map (newChaincodeEvent bn)).map ChaincodeEvent.blockNumber
        = List.replicate es.length bn := by
    intro es bn
    induction es with
    | nil => rfl
    | cons e t ih => simp [newChaincodeEvent, List.replicate, ih]
  exact this (decodedEvents b) (decodedBlockNumber b)

/-! ### Claim theorems -/

/-- C1: with close() never called and a naturally ending upstream trace,
the adapter's output is exactly the concatenation, in batch order, of
each batch's decoded event records in their original intra-batch order,
each tagged with its batch's block number, followed by a clean end of
stream; in particular the number of emitted events equals the sum of the
batches' record counts. -/
theorem C1_flattened_output (bs : List ChaincodeEventsResponse) :
    (runSteps (totalRecords bs + 1)
        (initialState bs (UpstreamEnd.natural : UpstreamEnd Unit))).1
        = (flattenBatches bs).map Output.event ++ [Output.ended]
      ∧ eventsOf (runSteps (totalRecords bs + 1)
          (initialState bs (UpstreamEnd.natural : UpstreamEnd Unit))).1
        = flattenBatches bs
      ∧ (flattenBatches bs).length = totalRecords bs
      ∧ ∀ (b : ChaincodeEventsResponse),
          (decodeBatch b).map ChaincodeEvent.blockNumber
            = List.replicate (decodedEvents b).length (decodedBlockNumber b) := by
  have h1 : (runSteps (totalRecords bs + 1)
      (initialState bs (UpstreamEnd.natural : UpstreamEnd Unit))).1
      = (flattenBatches bs).map Output.event ++ [Output.ended] := by
    rw [show initialState bs (UpstreamEnd.natural : UpstreamEnd Unit)
        = (⟨false, GenPos.outer, bs, UpstreamEnd.natural, 0⟩ : AdapterState Unit) from rfl,
      runSteps_outer_natural]
  refine ⟨h1, ?_, flattenBatches_length bs, decodeBatch_blockNumbers⟩
  rw [h1, eventsOf_map_event_append]
  simp [eventsOf_ended_cons, eventsOf_nil]

/-- C6: a naturally ending upstream trace, consumed without ever calling
close(), drains to a natural end of stream (no error output), and the
upstream close count never changes under `next` requests: the final
state's count is still 0, and in general one `next` request never invokes
`responses.close()` — only the adapter's own `close` does, incrementing
the count. -/
theorem C6_natural_end_no_upstream_close :
    (∀ (ε : Type) (s : AdapterState ε),
        (next s).2.upstreamCloseCount = s.upstreamCloseCount)
      ∧ (∀ (ε : Type) (s : AdapterState ε),
          (close s).upstreamCloseCount = s.upstreamCloseCount + 1)
      ∧ ∀ (bs : List ChaincodeEventsResponse) (k : Nat),
          runSteps (totalRecords bs + 1 + k)
              (initialState bs (UpstreamEnd.natural : UpstreamEnd Unit))
            = ((flattenBatches bs).map Output.event
                ++ Output.ended :: List.replicate k Output.ended,
               ⟨false, GenPos.done, [], UpstreamEnd.natural, 0⟩) := by
  refine ⟨fun ε s => (next_fields s).2, fun ε s => rfl, fun bs k => ?_⟩
  rw [runSteps_add,
    show initialState bs (UpstreamEnd.natural : UpstreamEnd Unit)
      = (⟨false, GenPos.outer, bs, UpstreamEnd.natural, 0⟩ : AdapterState Unit) from rfl,
    runSteps_outer_natural]
  simp [runSteps_done]

/-- C8: a transport error raised by the pull that would have produced the
next batch is propagated verbatim to the consumer at that very `next`
request, both when the generator sits at the outer loop and when it has
just finished a batch; there is no retry (the generator finishes, and all
later requests report end of stream) and no translation (the error value
is returned unchanged, for an arbitrary error type), and no upstream
close is invoked on this path. -/
theorem C8_error_passthrough (ε : Type) (e : ε) (c : Bool) (bn cnt k : Nat) :
    next (⟨c, GenPos.outer, [], UpstreamEnd.error e, cnt⟩ : AdapterState ε)
        = (Output.error e, ⟨c, GenPos.done, [], UpstreamEnd.error e, cnt⟩)
      ∧ next (⟨c, GenPos.inner bn [], [], UpstreamEnd.error e, cnt⟩ : AdapterState ε)
        = (Output.error e, ⟨c, GenPos.done, [], UpstreamEnd.error e, cnt⟩)
      ∧ (runSteps (k + 1) (⟨c, GenPos.outer, [], UpstreamEnd.error e, cnt⟩ : AdapterState ε)).1
        = Output.error e :: List.replicate k Output.ended
      ∧ (runSteps (k + 1)
          (⟨c, GenPos.outer, [], UpstreamEnd.error e, cnt⟩ : AdapterState ε)).2.upstreamCloseCount
        = cnt := by
  refine ⟨rfl, rfl, ?_, ?_⟩ <;>
    · rw [runSteps_succ]
      simp [next, pullNext, runSteps_done]

/-- C9: close() is safe to repeat: every call leaves the closed flag
true, `next` never changes the flag (so it is never reset), and a second
close() yields the same adapter state as the first except that the
upstream source's close is invoked once more — each call re-invokes
upstream close exactly once. -/
theorem C9_close_idempotent (ε : Type) (s : AdapterState ε) :
    (close s).closed = true
      ∧ (close s).upstreamCloseCount = s.upstreamCloseCount + 1
      ∧ (next s).2.closed = s.closed
      ∧ (close (close s)).closed = (close s).closed
      ∧ (close (close s)).pos = (close s).pos
      ∧ (close (close s)).upstream = (close s).upstream
      ∧ (close (close s)).ending = (close s).ending
      ∧ (close (close s)).upstreamCloseCount = (close s).upstreamCloseCount + 1 := by
  exact ⟨rfl, rfl, (next_fields s).1.1, rfl, rfl, rfl, rfl, rfl⟩

/-- Sample raw record used in concrete scenarios. -/
def recA : ChaincodeEventProto := ⟨some "cc", some "evA", some "t1", some [1]⟩

/-- Sample raw record used in concrete scenarios. -/
def recB : ChaincodeEventProto := ⟨some "cc", some "evB", some "t2", some [2]⟩

/-- Sample raw record used in concrete scenarios. -/
def recC : ChaincodeEventProto := ⟨some "cc", some "evC", some "t3", some [3]⟩

/-- Sample upstream trace with a two-record batch at block 5 followed by
a one-record batch at block 6. -/
def sampleTrace : List ChaincodeEventsResponse :=
  [⟨some 5, some [recA, recB]⟩, ⟨some 6, some [recC]⟩]

/-- Sample upstream trace with a single three-record batch at block 9. -/
def sampleTrace2 : List ChaincodeEventsResponse :=
  [⟨some 9, some [recA, recB, recC]⟩]

/-- C3 counterexample: consume one event of the block-5 batch of
`sampleTrace`, call close(), and request the next element: the adapter
still emits the batch's second record (the closed guard sits at the top
of the outer batch loop, not before every element), so it is false that
no further events are ever emitted after a mid-batch close(). -/
theorem C3_close_midbatch_counterexample :
    (next (close (next (initialState sampleTrace
          (UpstreamEnd.natural : UpstreamEnd Unit))).2)).1
        = Output.event ⟨5, "t2", "cc", "evB", [2]⟩
      ∧ (next (close (next (initialState sampleTrace
          (UpstreamEnd.natural : UpstreamEnd Unit))).2)).1 ≠ Output.ended := by
  decide

/-- C3 amended: if close() is called after some but not all events of a
batch have been consumed, the remaining records of that in-flight batch
are still emitted in their original order and no record of any
subsequent batch is ever emitted; the request after those records
reports end of stream when the upstream pull supplies a batch or ends
naturally, and propagates the error when that pull raises one;
thereafter every request reports end of stream, and the upstream
source's close is invoked exactly once by the close() call. -/
theorem C3_close_midbatch_amended (ε : Type) (bn : Nat)
    (rest : List ChaincodeEventProto)
    (bs : List ChaincodeEventsResponse) (ending : UpstreamEnd ε) (cnt k : Nat) :
    runSteps (rest.length + (k + 1))
        (close (⟨false, GenPos.inner bn rest, bs, ending, cnt⟩ : AdapterState ε))
        = ((rest.map fun e => Output.event (newChaincodeEvent bn e))
            ++ closedTerminalOutput bs ending :: List.replicate k Output.ended,
           ⟨true, GenPos.done, bs.tail, ending, cnt + 1⟩)
      ∧ eventsOf (runSteps (rest.length + (k + 1))
          (close (⟨false, GenPos.inner bn rest, bs, ending, cnt⟩ : AdapterState ε))).1
        = rest.map (newChaincodeEvent bn)
      ∧ (close (⟨false, GenPos.inner bn rest, bs, ending, cnt⟩ :
          AdapterState ε)).upstreamCloseCount = cnt + 1 := by
  have hclose : close (⟨false, GenPos.inner bn rest, bs, ending, cnt⟩ : AdapterState ε)
      = (⟨true, GenPos.inner bn rest, bs, ending, cnt + 1⟩ : AdapterState ε) := rfl
  refine ⟨?_, ?_, rfl⟩
  · rw [hclose, runSteps_closed_inner]
  · rw [hclose, runSteps_closed_inner]
    have h2 : (rest.map fun e => (Output.event (newChaincodeEvent bn e) : Output ε))
        = (rest.map (newChaincodeEvent bn)).map Output.event := by
      rw [List.map_map]; rfl
    dsimp only
    rw [h2, eventsOf_map_event_append, eventsOf_closedTerminal_cons,
      eventsOf_replicate_ended, List.append_nil]

/-- C5 counterexample: close the adapter before any element is requested,
over an upstream trace whose first pull raises a transport error: the
first `next` request reports that error, not end of stream, because the
generator awaits the pull before it ever reaches the closed guard. -/
theorem C5_close_before_first_counterexample :
    (next (close (initialState ([] : List ChaincodeEventsResponse)
          (UpstreamEnd.error (42 : Nat))))).1
        = Output.error 42
      ∧ (next (close (initialState ([] : List ChaincodeEventsResponse)
          (UpstreamEnd.error (42 : Nat))))).1 ≠ Output.ended := by
  decide

/-- C5 amended: if close() is called before any output element has been
requested, no event is ever emitted and the upstream source's close is
invoked exactly once; the first `next` request reports end of stream
whenever the upstream pull supplies a batch or ends naturally — an error
raised by that pull is propagated instead — and every request after the
first reports end of stream. -/
theorem C5_close_before_first_amended (ε : Type) (bs : List ChaincodeEventsResponse)
    (ending : UpstreamEnd ε) (k : Nat) :
    runSteps (k + 1) (close (initialState bs ending))
        = (closedTerminalOutput bs ending :: List.replicate k Output.ended,
           ⟨true, GenPos.done, bs.tail, ending, 1⟩)
      ∧ (close (initialState bs ending)).upstreamCloseCount = 1
      ∧ eventsOf (runSteps (k + 1) (close (initialState bs ending))).1 = [] := by
  have h : runSteps (k + 1) (close (initialState bs ending))
      = (closedTerminalOutput bs ending :: List.replicate k Output.ended,
         ⟨true, GenPos.done, bs.tail, ending, 1⟩) := by
    rw [show close (initialState bs ending)
        = (⟨true, GenPos.outer, bs, ending, 1⟩ : AdapterState ε) from rfl,
      runSteps_closed_outer]
  refine ⟨h, rfl, ?_⟩
  rw [h]
  cases bs with
  | nil => cases ending <;>
      simp [closedTerminalOutput, eventsOf_ended_cons, eventsOf_error_cons,
        eventsOf_replicate_ended]
  | cons b rest =>
      simp [closedTerminalOutput, eventsOf_ended_cons, eventsOf_replicate_ended]

/-- C7 counterexample: consume one event of the three-record block-9
batch of `sampleTrace2`, call close(), and request the next element: the
request emits the batch's second record rather than a clean end of
stream, so a request after close() does not always yield end of
stream. -/
theorem C7_use_after_close_counterexample :
    (next (close (next (initialState sampleTrace2
          (UpstreamEnd.natural : UpstreamEnd Unit))).2)).1
        = Output.event ⟨9, "t2", "cc", "evB", [2]⟩
      ∧ (next (close (next (initialState sampleTrace2
          (UpstreamEnd.natural : UpstreamEnd Unit))).2)).1 ≠ Output.ended := by
  decide

/-- C7 amended: once the closed flag is set, the adapter first emits only
the remaining records of the at-most-one in-flight batch; the request
after those reports end of stream when the upstream pull supplies a batch
or ends naturally, and propagates the error when that pull raises one;
thereafter (and immediately, for a finished generator) every request
reports end of stream and never an error. -/
theorem C7_use_after_close_amended (ε : Type) (bs : List ChaincodeEventsResponse)
    (ending : UpstreamEnd ε) (cnt bn k : Nat) (rest : List ChaincodeEventProto) :
    (runSteps (rest.length + (k + 1))
        (⟨true, GenPos.inner bn rest, bs, ending, cnt⟩ : AdapterState ε)).1
        = (rest.map fun e => Output.event (newChaincodeEvent bn e))
            ++ closedTerminalOutput bs ending :: List.replicate k Output.ended
      ∧ (runSteps (k + 1) (⟨true, GenPos.outer, bs, ending, cnt⟩ : AdapterState ε)).1
        = closedTerminalOutput bs ending :: List.replicate k Output.ended
      ∧ (runSteps k (⟨true, GenPos.done, bs, ending, cnt⟩ : AdapterState ε)).1
        = List.replicate k Output.ended
      ∧ (∀ (b : ChaincodeEventsResponse) (rest2 : List ChaincodeEventsResponse),
          closedTerminalOutput (b :: rest2) ending = Output.ended)
      ∧ closedTerminalOutput ([] : List ChaincodeEventsResponse)
          (UpstreamEnd.natural : UpstreamEnd ε) = Output.ended
      ∧ ∀ (x : ε), closedTerminalOutput ([] : List ChaincodeEventsResponse)
          (UpstreamEnd.error x) = Output.error x := by
  refine ⟨?_, ?_, ?_, fun b rest2 => rfl, rfl, fun x => rfl⟩
  · rw [runSteps_closed_inner]
  · rw [runSteps_closed_outer]
  · rw [runSteps_done]

/-- C10: the closed guard is evaluated only at batch boundaries: if
close() is called while `rest` records of the current batch are still
pending, the following `rest.length` requests emit exactly those records
in order, and over any longer run those are the only events ever emitted
— production stops with the terminal output of the first pull after the
in-flight batch, before any record of a subsequent batch. -/
theorem C10_closed_guard_batch_boundary (ε : Type) (c : Bool) (bn : Nat)
    (rest : List ChaincodeEventProto) (bs : List ChaincodeEventsResponse)
    (ending : UpstreamEnd ε) (cnt k : Nat) :
    (runSteps rest.length
        (close (⟨c, GenPos.inner bn rest, bs, ending, cnt⟩ : AdapterState ε))).1
        = (rest.map fun e => Output.event (newChaincodeEvent bn e))
      ∧ eventsOf (runSteps (rest.length + (k + 1))
          (close (⟨c, GenPos.inner bn rest, bs, ending, cnt⟩ : AdapterState ε))).1
        = rest.map (newChaincodeEvent bn)
      ∧ (runSteps (rest.length + (k + 1))
          (close (⟨c, GenPos.inner bn rest, bs, ending, cnt⟩ : AdapterState ε))).2.pos
        = GenPos.done := by
  have hclose : close (⟨c, GenPos.inner bn rest, bs, ending, cnt⟩ : AdapterState ε)
      = (⟨true, GenPos.inner bn rest, bs, ending, cnt + 1⟩ : AdapterState ε) := rfl
  refine ⟨?_, ?_, ?_⟩
  · rw [hclose, runSteps_inner_partial]
  · rw [hclose, runSteps_closed_inner]
    have h2 : (rest.map fun e => (Output.event (newChaincodeEvent bn e) : Output ε))
        = (rest.map (newChaincodeEvent bn)).map Output.event := by
      rw [List.map_map]; rfl
    dsimp only
    rw [h2, eventsOf_map_event_append, eventsOf_closedTerminal_cons,
      eventsOf_replicate_ended, List.append_nil]
  · rw [hclose, runSteps_closed_inner]

/-- C4: decoding resolves absent optional fields to defined defaults and
never to an error (the decoders are total functions): an absent
blockNumber on the batch decodes to block number 0, an absent event list
decodes to the empty sequence, an absent chaincodeId, eventName or
transactionId on a record decodes to the empty string, and an absent
payload decodes to the zero-length byte sequence. -/
theorem C4_decode_defaults (bn : Nat) (e : ChaincodeEventProto)
    (r : ChaincodeEventsResponse) :
    (e.chaincodeId = none → (newChaincodeEvent bn e).chaincodeId = "")
      ∧ (e.eventName = none → (newChaincodeEvent bn e).eventName = "")
      ∧ (e.txId = none → (newChaincodeEvent bn e).transactionId = "")
      ∧ (e.payload = none → (newChaincodeEvent bn e).payload = [])
      ∧ (r.blockNumber = none → decodedBlockNumber r = 0)
      ∧ (r.eventsList = none → decodedEvents r = [] ∧ decodeBatch r = []) := by
  refine ⟨fun h => ?_, fun h => ?_, fun h => ?_, fun h => ?_, fun h => ?_, fun h => ?_⟩
  · simp [newChaincodeEvent, h]
  · simp [newChaincodeEvent, h]
  · simp [newChaincodeEvent, h]
  · simp [newChaincodeEvent, h]
  · simp [decodedBlockNumber, h]
  · simp [decodeBatch, decodedEvents, h]

/-- C4 witness: the defaults at a fully absent record and batch. -/
theorem C4_decode_defaults_witness :
    (newChaincodeEvent 7 ⟨none, none, none, none⟩).chaincodeId = ""
      ∧ (newChaincodeEvent 7 ⟨none, none, none, none⟩).eventName = ""
      ∧ (newChaincodeEvent 7 ⟨none, none, none, none⟩).transactionId = ""
      ∧ (newChaincodeEvent 7 ⟨none, none, none, none⟩).payload = []
      ∧ decodedBlockNumber ⟨none, none⟩ = 0
      ∧ decodedEvents ⟨none, none⟩ = [] ∧ decodeBatch ⟨none, none⟩ = [] := by
  have h := C4_decode_defaults 7 ⟨none, none, none, none⟩ ⟨none, none⟩
  exact ⟨h.1 rfl, h.2.1 rfl, h.2.2.1 rfl, h.2.2.2.1 rfl, h.2.2.2.2.1 rfl,
    (h.2.2.2.2.2 rfl).1, (h.2.2.2.2.2 rfl).2⟩

/-! ### Emission order: indexed view of the flattened output -/

/-- Events of one batch paired with their record index within the batch,
starting from a given index. -/
def decodeBatchIndexed (bn : Nat) : Nat → List ChaincodeEventProto → List (Nat × ChaincodeEvent)
  | _, [] => []
  | r, e :: es => (r, newChaincodeEvent bn e) :: decodeBatchIndexed bn (r + 1) es

/-- Flattened output with provenance: each decoded event paired with its
batch index (counted from a given start) and its record index within
that batch. -/
def flattenIndexed : Nat → List ChaincodeEventsResponse → List (Nat × Nat × ChaincodeEvent)
  | _, [] => []
  | k, b :: bs =>
    ((decodeBatchIndexed (decodedBlockNumber b) 0 (decodedEvents b)).map
        fun p => (k, p.1, p.2))
      ++ flattenIndexed (k + 1) bs

/-- Order the claim asserts between two provenance-tagged emitted events:
either strictly increasing block number, or same block number, same
batch, and strictly increasing record index. -/
def emissionOrdered (a b : Nat × Nat × ChaincodeEvent) : Prop :=
  a.2.2.blockNumber < b.2.2.blockNumber
    ∨ (a.2.2.blockNumber = b.2.2.blockNumber ∧ a.1 = b.1 ∧ a.2.1 < b.2.1)

theorem decodeBatchIndexed_mem (bn : Nat) :
    ∀ (es : List ChaincodeEventProto) (r : Nat) (p : Nat × ChaincodeEvent),
      p ∈ decodeBatchIndexed bn r es → r ≤ p.1 ∧ p.2.blockNumber = bn := by
  intro es
  induction es with
  | nil => intro r p hp; simp [decodeBatchIndexed] at hp
  | cons e t ih =>
    intro r p hp
    rw [decodeBatchIndexed, List.mem_cons] at hp
    cases hp with
    | inl h => subst h; exact ⟨Nat.le_refl r, rfl⟩
    | inr h =>
      have := ih (r + 1) p h
      exact ⟨Nat.le_of_succ_le this.1, this.2⟩

theorem decodeBatchIndexed_pairwise (bn : Nat) :
    ∀ (es : List ChaincodeEventProto) (r : Nat),
      List.Pairwise (fun p q => p.1 < q.1) (decodeBatchIndexed bn r es) := by
  intro es
  induction es with
  | nil => intro r; exact List.Pairwise.nil
  | cons e t ih =>
    intro r
    rw [decodeBatchIndexed]
    refine List.Pairwise.cons (fun q hq => ?_) (ih (r + 1))
    exact Nat.lt_of_succ_le (decodeBatchIndexed_mem bn t (r + 1) q hq).1

theorem decodeBatchIndexed_proj (bn : Nat) :
    ∀ (es : List ChaincodeEventProto) (r : Nat),
      (decodeBatchIndexed bn r es).map (fun p => p.2) = es.map (newChaincodeEvent bn) := by
  intro es
  induction es with
  | nil => intro r; rfl
  | cons e t ih => intro r; simp [decodeBatchIndexed, ih]

theorem flattenIndexed_proj :
    ∀ (bs : List ChaincodeEventsResponse) (k : Nat),
      (flattenIndexed k bs).map (fun p => p.2.2) = flattenBatches bs := by
  intro bs
  induction bs with
  | nil => intro k; rfl
  | cons b t ih =>
    intro k
    rw [flattenIndexed, flattenBatches, List.map_append, ih, List.map_map]
    have : ((fun p => p.2.2) ∘ fun p => ((k, p.1, p.2) : Nat × Nat × ChaincodeEvent))
        = fun (p : Nat × ChaincodeEvent) => p.2 := rfl
    rw [this, decodeBatchIndexed_proj, decodeBatch]

theorem flattenIndexed_mem_blockNumber :
    ∀ (bs : List ChaincodeEventsResponse) (k : Nat) (p : Nat × Nat × ChaincodeEvent),
      p ∈ flattenIndexed k bs → p.2.2.blockNumber ∈ bs.map decodedBlockNumber := by
  intro bs
  induction bs with
  | nil => intro k p hp; simp [flattenIndexed] at hp
  | cons b t ih =>
    intro k p hp
    rw [flattenIndexed, List.mem_append] at hp
    rw [List.map_cons, List.mem_cons]
    cases hp with
    | inl h =>
      rw [List.mem_map] at h
      obtain ⟨q, hq, hqe⟩ := h
      left
      rw [← hqe]
      exact (decodeBatchIndexed_mem (decodedBlockNumber b) (decodedEvents b) 0 q hq).2
    | inr h => exact Or.inr (ih (k + 1) p h)

theorem flattenIndexed_mem_batchIndex :
    ∀ (bs : List ChaincodeEventsResponse) (k : Nat) (p : Nat × Nat × ChaincodeEvent),
      p ∈ flattenIndexed k bs → k ≤ p.1 := by
  intro bs
  induction bs with
  | nil => intro k p hp; simp [flattenIndexed] at hp
  | cons b t ih =>
    intro k p hp
    rw [flattenIndexed, List.mem_append] at hp
    cases hp with
    | inl h =>
      rw [List.mem_map] at h
      obtain ⟨q, hq, hqe⟩ := h
      rw [← hqe]
    | inr h => exact Nat.le_of_succ_le (ih (k + 1) p h)

theorem flattenIndexed_pairwise :
    ∀ (bs : List ChaincodeEventsResponse) (k : Nat),
      List.Pairwise (fun a b => a < b) (bs.map decodedBlockNumber) →
      List.Pairwise emissionOrdered (flattenIndexed k bs) := by
  intro bs
  induction bs with
  | nil => intro k h; exact List.Pairwise.nil
  | cons b t ih =>
    intro k h
    rw [List.map_cons, List.pairwise_cons] at h
    rw [flattenIndexed, List.pairwise_append]
    refine ⟨?_, ih (k + 1) h.2, ?_⟩
    · rw [List.pairwise_map]
      refine List.Pairwise.imp_of_mem ?_
        (decodeBatchIndexed_pairwise (decodedBlockNumber b) (decodedEvents b) 0)
      intro p q hp hq hlt
      have hbp := (decodeBatchIndexed_mem (decodedBlockNumber b)
        (decodedEvents b) 0 p hp).2
      have hbq := (decodeBatchIndexed_mem (decodedBlockNumber b)
        (decodedEvents b) 0 q hq).2
      exact Or.inr ⟨hbp.trans hbq.symm, rfl, hlt⟩
    · intro x hx y hy
      rw [List.mem_map] at hx
      obtain ⟨p, hp, hpe⟩ := hx
      have hbx : x.2.2.blockNumber = decodedBlockNumber b := by
        rw [← hpe]
        exact (decodeBatchIndexed_mem (decodedBlockNumber b)
          (decodedEvents b) 0 p hp).2
      have hby := flattenIndexed_mem_blockNumber t (k + 1) y hy
      exact Or.inl (hbx ▸ h.1 y.2.2.blockNumber hby)

/-- C2: over an upstream trace whose batches carry strictly increasing
decoded block numbers, the provenance-tagged flattened output is
pairwise ordered: an earlier emitted event has a strictly smaller block
number than a later one, or the two share the block number, come from
the same batch, and the earlier one's record index in that batch is
strictly smaller; and the adapter's emitted event sequence is exactly
the projection of that tagged sequence. -/
theorem C2_emission_order_invariant (bs : List ChaincodeEventsResponse)
    (h : List.Pairwise (fun a b => a < b) (bs.map decodedBlockNumber)) :
    List.Pairwise emissionOrdered (flattenIndexed 0 bs)
      ∧ (flattenIndexed 0 bs).map (fun p => p.2.2) = flattenBatches bs
      ∧ eventsOf (runSteps (totalRecords bs + 1)
          (initialState bs (UpstreamEnd.natural : UpstreamEnd Unit))).1
        = (flattenIndexed 0 bs).map fun p => p.2.2 := by
  refine ⟨flattenIndexed_pairwise bs 0 h, flattenIndexed_proj bs 0, ?_⟩
  rw [flattenIndexed_proj bs 0,
    show initialState bs (UpstreamEnd.natural : UpstreamEnd Unit)
      = (⟨false, GenPos.outer, bs, UpstreamEnd.natural, 0⟩ : AdapterState Unit) from rfl,
    runSteps_outer_natural]
  dsimp only
  rw [eventsOf_map_event_append]
  simp [eventsOf_ended_cons, eventsOf_nil]

/-- C2 witness: the order invariant at a concrete two-batch trace with
block numbers 1 and 2. -/
theorem C2_emission_order_invariant_witness :
    List.Pairwise emissionOrdered
        (flattenIndexed 0 [⟨some 1, some [recA]⟩, ⟨some 2, some [recB]⟩])
      ∧ (flattenIndexed 0 [⟨some 1, some [recA]⟩, ⟨some 2, some [recB]⟩]).map
          (fun p => p.2.2)
        = flattenBatches [⟨some 1, some [recA]⟩, ⟨some 2, some [recB]⟩]
      ∧ eventsOf (runSteps
          (totalRecords [⟨some 1, some [recA]⟩, ⟨some 2, some [recB]⟩] + 1)
          (initialState [⟨some 1, some [recA]⟩, ⟨some 2, some [recB]⟩]
            (UpstreamEnd.natural : UpstreamEnd Unit))).1
        = (flattenIndexed 0 [⟨some 1, some [recA]⟩, ⟨some 2, some [recB]⟩]).map
            fun p => p.2.2 :=
  C2_emission_order_invariant [⟨some 1, some [recA]⟩, ⟨some 2, some [recB]⟩]
    (by decide)

end FabricGateway
